import Mathlib

/-!
Verification of `src/Backend/src/awattprice/config.py` (AWattPrice config module).

The module's core is `config_updater_factory`, a format-preserving merge of a
key/value overlay (a `Box`) into an INI-style document held by a `ConfigUpdater`
object, together with `write_config_updater`, `bootstrap_config` and
`read_config`.

The document model (the `configupdater` library used by the source) is not part
of the repository; it is modelled here from the spec's Document Model contract:
a document is an ordered list of blocks, each block either a section (a named
ordered list of option lines and raw comment/blank lines) or a top-level raw
text line.  All functions below are straight translations of the Python code in
`config.py`; exceptions are modelled by `Except PyExc`, the process state
(filesystem, opened files, `sys.exit`) by explicit values.
-/

set_option autoImplicit false

namespace AWattPrice

/-- Python exception kinds raised by `config.py` (plus `ConfigError`, the
error class the spec posits for the merge failure; the code itself never
raises it). -/
inductive PyExc where
  | attributeError (msg : String)
  | indexError
  | boxKeyError (key : String)
  | fileNotFoundError (path : String)
  | fileExistsError
  | configError (msg : String)
deriving DecidableEq, Repr

/-- One line inside a section body: an option (`key: value`) or a raw
comment/blank line kept verbatim for round-trip fidelity. -/
inductive SLine where
  | opt (key value : String)
  | raw (text : String)
deriving DecidableEq, Repr

/-- A named section: header name plus its body lines, in order.
Modelled from the spec: the Document Model's `Section` (the `configupdater`
library is not in the repository). -/
structure Section where
  name : String
  lines : List SLine
deriving DecidableEq, Repr

/-- A top-level document block: a section, or a raw text line (blank lines and
comments between sections).  A document is an ordered list of blocks.
Modelled from the spec: the Document Model's `Document`. -/
inductive Block where
  | sec (s : Section)
  | text (line : String)
deriving DecidableEq, Repr

/-- The key of an option line, `none` for raw lines. -/
def keyOf : SLine → Option String
  | .opt k _ => some k
  | .raw _ => none

/-- The ordered option keys among a list of section body lines. -/
def optKeys (ls : List SLine) : List String := ls.filterMap keyOf

/-- `section.options()`: the ordered option keys of a section. -/
def Section.optionKeys (s : Section) : List String := optKeys s.lines

/-- `option in section`: membership test on option keys. -/
def Section.hasOption (s : Section) (k : String) : Bool := decide (k ∈ s.optionKeys)

/-- `section[option].value = value`: replace the value of the first option line
whose key is `k`, leaving every other line untouched. -/
def setOptLines : List SLine → String → String → List SLine
  | [], _, _ => []
  | .opt k0 v0 :: rest, k, v =>
    if k0 = k then .opt k0 v :: rest else .opt k0 v0 :: setOptLines rest k v
  | .raw t :: rest, k, v => .raw t :: setOptLines rest k v

/-- `section[a].add_after.option(k, v)`: insert a new option line right after
the first option line whose key is `a`. -/
def insOptLines : List SLine → String → String → String → List SLine
  | [], _, _, _ => []
  | .opt k0 v0 :: rest, a, k, v =>
    if k0 = a then .opt k0 v0 :: .opt k v :: rest
    else .opt k0 v0 :: insOptLines rest a k v
  | .raw t :: rest, a, k, v => .raw t :: insOptLines rest a k v

/-- Section-level value update (see `setOptLines`). -/
def Section.setValue (s : Section) (k v : String) : Section :=
  ⟨s.name, setOptLines s.lines k v⟩

/-- Section-level insertion after an existing option (see `insOptLines`). -/
def Section.insertAfterOpt (s : Section) (a k v : String) : Section :=
  ⟨s.name, insOptLines s.lines a k v⟩

/-- The inner option loop of `config_updater_factory`:

    for option, value in config[section].items():
        if option in config_updater_section:
            config_updater_section[option].value = value
        else:
            config_updater_section[last_option].add_after.option(option, value)
            last_option = option
-/
def mergeOptions : Section → String → List (String × String) → Section
  | sec, _, [] => sec
  | sec, last, (k, v) :: rest =>
    if sec.hasOption k then mergeOptions (sec.setValue k v) last rest
    else mergeOptions (sec.insertAfterOpt last k v) k rest

/-- The section name carried by a block, if it is a section block. -/
def sectionName? : Block → Option String
  | .sec s => some s.name
  | .text _ => none

/-- `config_updater.sections()`: ordered section names of the document. -/
def sectionNames (doc : List Block) : List String := doc.filterMap sectionName?

/-- `config_updater[name]` as a lookup: the first section with the given name. -/
def getSection? : List Block → String → Option Section
  | [], _ => none
  | .sec s :: rest, nm => if s.name = nm then some s else getSection? rest nm
  | .text _ :: rest, nm => getSection? rest nm

/-- `config_updater.has_section(name)`. -/
def hasSection (doc : List Block) (nm : String) : Bool := (getSection? doc nm).isSome

/-- `config_updater[name] = section`: replace the first section with the given
name (re-adding an existing name updates in place, per the spec invariant). -/
def setSection : List Block → String → Section → List Block
  | [], _, _ => []
  | .sec s :: rest, nm, s' =>
    if s.name = nm then .sec s' :: rest else .sec s :: setSection rest nm s'
  | .text t :: rest, nm, s' => .text t :: setSection rest nm s'

/-- `config_updater[name].add_after.space().section(c)`: insert one blank line
followed by the new section right after the first section named `nm`.  (On a
missing name the source would raise `KeyError`; the merge only ever calls this
with a name present in the document, so the missing case is a no-op here.) -/
def addSpaceSectionAfter : List Block → String → Section → List Block
  | [], _, _ => []
  | .sec s :: rest, nm, c =>
    if s.name = nm then .sec s :: .text "" :: .sec c :: rest
    else .sec s :: addSpaceSectionAfter rest nm c
  | .text t :: rest, nm, c => .text t :: addSpaceSectionAfter rest nm c

/-- The staged section built for an absent overlay section:
`"[{section}]\n" + "\n".join(f"{option}: {value}" ...)` re-parsed. -/
def buildSection (nm : String) (items : List (String × String)) : Section :=
  ⟨nm, items.map fun kv => SLine.opt kv.1 kv.2⟩

/-- First pass of the merge in `config_updater_factory`: walk the overlay
sections in order; merge into existing sections (computing
`last_option = section.options()[-1]`, which raises `IndexError` on an empty
section), stage absent ones in `to_add`. -/
def mergeStep1 : List Block → List Section → List (String × List (String × String)) →
    Except PyExc (List Block × List Section)
  | doc, toAdd, [] => .ok (doc, toAdd)
  | doc, toAdd, (nm, items) :: rest =>
    match getSection? doc nm with
    | some sec =>
      match sec.optionKeys.getLast? with
      | none => .error .indexError
      | some last => mergeStep1 (setSection doc nm (mergeOptions sec last items)) toAdd rest
    | none => mergeStep1 doc (toAdd ++ [buildSection nm items]) rest

/-- Second pass: append the staged sections, chained one after another, each
preceded by one blank line:

    last_section = config_updater[config_updater.sections()[-1]]
    for section in to_add:
        config_updater[last_section.name].add_after.space().section(section)
        last_section = section
-/
def mergeAppend : List Block → String → List Section → List Block
  | doc, _, [] => doc
  | doc, lastName, c :: rest => mergeAppend (addSpaceSectionAfter doc lastName c) c.name rest

/-- The whole merge body of `config_updater_factory` (both passes), acting on
the parsed document and the overlay's section/key/value data. -/
def mergeDoc (doc : List Block) (overlay : List (String × List (String × String))) :
    Except PyExc (List Block) :=
  match mergeStep1 doc [] overlay with
  | .error e => .error e
  | .ok (doc', toAdd) =>
    if toAdd.isEmpty then .ok doc'
    else
      match (sectionNames doc').getLast? with
      | none => .error .indexError
      | some lastName => .ok (mergeAppend doc' lastName toAdd)

/-- The overlay `Box` passed to `config_updater_factory`: the reserved
`config_file_path` metadata entry (a string, when present) plus the ordinary
sections, each a mapping of keys to values, all in insertion order. -/
structure Box where
  config_file_path : Option String
  sections : List (String × List (String × String))
deriving DecidableEq, Repr

/-- `copy.deepcopy(config)`: a structural copy of the overlay. -/
def deepcopyBox (b : Box) : Box := ⟨b.config_file_path, b.sections⟩

/-- The observable outcome of a `config_updater_factory` call: the returned
value or raised exception, the state of the caller's `config` object after the
call, and the list of files opened for reading during the call. -/
structure FactoryResult where
  result : Except PyExc (String × List Block)
  callerConfig : Box
  openedPaths : List String
deriving Repr

/-- `config_updater_factory(config)`.  The on-disk world is modelled by
`fileDocs`, mapping a path to the parsed document of the file stored there
(`none` when opening the file fails).  The function deep-copies the overlay,
pops the reserved path key from the copy (raising `AttributeError` when it is
absent, before any file access), opens and parses the file, and runs the merge.
The caller's `config` is only ever read, never written. -/
def config_updater_factory (config : Box) (fileDocs : String → Option (List Block)) :
    FactoryResult :=
  let config_updater_data := deepcopyBox config
  match config_updater_data.config_file_path with
  | none =>
    ⟨.error (.attributeError
        "The config is missing the config_file_path. This should not happen."),
      config, []⟩
  | some pathVal =>
    let popped : Box := ⟨none, config_updater_data.sections⟩
    match fileDocs pathVal with
    | none => ⟨.error (.fileNotFoundError pathVal), config, [pathVal]⟩
    | some doc =>
      match mergeDoc doc popped.sections with
      | .error e => ⟨.error e, config, [pathVal]⟩
      | .ok doc' => ⟨.ok (pathVal, doc'), config, [pathVal]⟩

/-- Serialization of one section body line. -/
def slineStr : SLine → String
  | .opt k v => k ++ ": " ++ v
  | .raw t => t

/-- Serialization of one block, as a list of lines. -/
def blockLines : Block → List String
  | .sec s => ("[" ++ s.name ++ "]") :: s.lines.map slineStr
  | .text t => [t]

/-- `serialize(Document)` as the ordered list of output lines. -/
def serializeDocLines (doc : List Block) : List String := (doc.map blockLines).flatten

/-- `serialize(Document)` as the full output text (each line newline-terminated). -/
def serializeDoc (doc : List Block) : String :=
  String.join ((serializeDocLines doc).map (fun l => l ++ "\n"))

/-- POSIX semantics of writing `newContent` from offset 0 into a file that
already holds `oldContent`, with `O_WRONLY | O_CREAT` and no truncation: the
old bytes beyond the written length survive. -/
def writeFileAt (oldContent newContent : String) : String :=
  ⟨newContent.data ++ oldContent.data.drop newContent.data.length⟩

/-- `write_config_updater(path, config)`: the file store after the call.  The
store maps a path to the text stored there.  The source opens the path with
`os.open(..., os.O_WRONLY | os.O_CREAT, 0o600)` — create-or-open, no
truncation — and writes the serialized document from the start. -/
def write_config_updater (files : String → Option String) (p : String) (doc : List Block) :
    String → Option String :=
  let content := serializeDoc doc
  let newFile :=
    match files p with
    | none => content
    | some old => writeFileAt old content
  fun q => if q = p then some newFile else files q

/-- Python `str.lower()`. -/
def pyLower (s : String) : String := ⟨s.data.map Char.toLower⟩

/-- The `use_sandbox` coercion in `read_config`:

    if config.notifications.use_sandbox.lower() == "true":
        run_on_sandbox = True
    elif config.notifications.use_sandbox.lower() == "false":
        run_on_sandbox = False
    else:
        log.error(...)
        run_on_sandbox = False

Returns the resolved boolean and whether the warning branch was taken. -/
def coerce_use_sandbox (v : String) : Bool × Bool :=
  if pyLower v = "true" then (true, false)
  else if pyLower v = "false" then (false, false)
  else (false, true)

/-- Is this character one of the quote characters `"` `'`? -/
def isQuoteChar (c : Char) : Bool := c = '"' || c = Char.ofNat 39

/-- Python `str.strip("\"'")`: drop quote characters from both ends. -/
def pyStripQuotes (s : String) : String :=
  ⟨((s.data.dropWhile isQuoteChar).reverse.dropWhile isQuoteChar).reverse⟩

/-- A filesystem path, as its components. -/
abbrev PyPath := List String

/-- `path.parent`. -/
def parentP (p : PyPath) : PyPath := p.dropLast

/-- The per-user default config path `~/.config/awattprice/config.ini`. -/
def homeConfigPath : PyPath := ["~", ".config", "awattprice", "config.ini"]

/-- The filesystem facts `read_config` consults: `path.exists()` and
`path.is_dir()`. -/
structure FS where
  pathExists : PyPath → Bool
  isDir : PyPath → Bool

/-- `os.makedirs(d)`: every prefix of `d` becomes an existing directory. -/
def mkdirAll (fs : FS) (d : PyPath) : FS :=
  ⟨fun q => q.isPrefixOf d || fs.pathExists q, fun q => q.isPrefixOf d || fs.isDir q⟩

/-- Creating (or re-creating) the file at `p` (`write_config_updater`'s effect
on existence). -/
def createFile (fs : FS) (p : PyPath) : FS :=
  ⟨fun q => decide (q = p) || fs.pathExists q, fs.isDir⟩

/-- `bootstrap_config(path)`'s filesystem effect: create the parent directory
when it is not a directory (`os.makedirs` raises `FileExistsError` when the
parent exists as a non-directory), then write the default config file. -/
def bootstrap_config (fs : FS) (p : PyPath) : Except PyExc FS :=
  if fs.isDir (parentP p) then .ok (createFile fs p)
  else if fs.pathExists (parentP p) then .error .fileExistsError
  else .ok (createFile (mkdirAll fs (parentP p)) p)

/-- The flattened, typed view `read_config` returns, plus whether the
`use_sandbox` warning was logged. -/
structure ResolvedConfig where
  config_file_path : PyPath
  data_dir : String
  log_dir : String
  apns_dir : String
  use_sandbox : Bool
  sandbox_warning : Bool
  dev_team_id : String
  apns_encryption_key_id : String
  apns_encryption_key : String
deriving DecidableEq, Repr

/-- The value of the first option line with the given key. -/
def lookupOptValue : List SLine → String → Option String
  | [], _ => none
  | .opt k v :: rest, key => if k = key then some v else lookupOptValue rest key
  | .raw _ :: rest, key => lookupOptValue rest key

/-- `config.section.key` on the flattened `Box`: a missing section or key
raises (`BoxKeyError`). -/
def boxGet (doc : List Block) (sec key : String) : Except PyExc String :=
  match getSection? doc sec with
  | none => .error (.boxKeyError sec)
  | some s =>
    match lookupOptValue s.lines key with
    | none => .error (.boxKeyError (sec ++ "." ++ key))
    | some v => .ok v

/-- The tail of `read_config`: flatten the parsed document, strip quotes from
the designated string fields and coerce `use_sandbox`, in source order. -/
def resolveConfigValues (p : PyPath) (doc : List Block) : Except PyExc ResolvedConfig := do
  let dd ← boxGet doc "file_location" "data_dir"
  let ld ← boxGet doc "file_location" "log_dir"
  let ad ← boxGet doc "file_location" "apns_dir"
  let us ← boxGet doc "notifications" "use_sandbox"
  let sb := coerce_use_sandbox us
  let dt ← boxGet doc "notifications" "dev_team_id"
  let kid ← boxGet doc "notifications" "apns_encryption_key_id"
  let key ← boxGet doc "notifications" "apns_encryption_key"
  return ⟨p, pyStripQuotes dd, pyStripQuotes ld, pyStripQuotes ad, sb.1, sb.2,
    pyStripQuotes dt, pyStripQuotes kid, pyStripQuotes key⟩

/-- Milestones `read_config` passes through, for ordering statements. -/
inductive RCEvent where
  | bootstrapped
  | checkedPerms
  | parsedFile
deriving DecidableEq, Repr

/-- How a `read_config` call ends: `sys.exit(code)`, an uncaught exception, or
a returned resolved configuration. -/
inductive RCResult where
  | exited (code : Nat)
  | raised (e : PyExc)
  | ok (cfg : ResolvedConfig)
deriving DecidableEq, Repr

/-- The part of `read_config` after path resolution: the parent-directory
check, the permission check (`verify_file_permissions`, an opaque collaborator
predicate), then — only when an existing file was found — parsing the file
(`docAt path = none` models a read/parse exception, caught and turned into
`sys.exit(1)`), and finally the typed flattening. -/
def readConfigAt (path : PyPath) (fs : FS) (found : Bool) (verify : PyPath → Bool)
    (docAt : PyPath → Option (List Block)) (defaultDoc : List Block) (ev : List RCEvent) :
    RCResult × List RCEvent :=
  if fs.pathExists (parentP path) && !fs.isDir (parentP path) then (.exited 1, ev)
  else if !verify path then (.exited 1, ev ++ [.checkedPerms])
  else if found then
    match docAt path with
    | none => (.exited 1, ev ++ [.checkedPerms, .parsedFile])
    | some doc =>
      match resolveConfigValues path doc with
      | .error e => (.raised e, ev ++ [.checkedPerms, .parsedFile])
      | .ok r => (.ok r, ev ++ [.checkedPerms, .parsedFile])
  else
    match resolveConfigValues path defaultDoc with
    | .error e => (.raised e, ev ++ [.checkedPerms])
    | .ok r => (.ok r, ev ++ [.checkedPerms])

/-- `read_config(path?)`: try the candidate paths in order and use the first
that exists; when none exists, bootstrap the per-user default path and use the
bootstrapped default document instead of re-reading the file. -/
def read_config (candidates : List PyPath) (fs : FS) (verify : PyPath → Bool)
    (docAt : PyPath → Option (List Block)) (defaultDoc : List Block) :
    RCResult × List RCEvent :=
  match candidates.find? (fun q => fs.pathExists q) with
  | some p => readConfigAt p fs true verify docAt defaultDoc []
  | none =>
    match bootstrap_config fs homeConfigPath with
    | .error e => (.raised e, [.bootstrapped])
    | .ok fs' => readConfigAt homeConfigPath fs' false verify docAt defaultDoc [.bootstrapped]

/-- Does an `Except` hold the spec's `ConfigError`? -/
def isConfigErrorResult {α : Type} : Except PyExc α → Bool
  | .error (.configError _) => true
  | _ => false

/-- Is an `Except` an error at all? -/
def isErrorResult {α : Type} : Except PyExc α → Bool
  | .error _ => true
  | _ => false

/-- Did `read_config` end in `sys.exit`? -/
def RCResult.isExited : RCResult → Bool
  | .exited _ => true
  | _ => false

/-! Concrete instances used by witnesses and counterexamples. -/

/-- An overlay without the reserved `config_file_path` key. -/
def noPathBox : Box := ⟨none, [("a", [("k", "v")])]⟩

/-- An overlay carrying the reserved `config_file_path` key. -/
def withPathBox : Box := ⟨some "config.ini", [("a", [("k", "v")])]⟩

/-- A one-file world mapping every path to a small parsed document. -/
def smallWorld : String → Option (List Block) :=
  fun _ => some [Block.sec ⟨"a", [SLine.opt "k" "0"]⟩]

/-- A document carrying every field `read_config`'s typed flattening needs. -/
def fullDoc : List Block :=
  [Block.sec ⟨"file_location",
      [SLine.opt "data_dir" "d", SLine.opt "log_dir" "l", SLine.opt "apns_dir" "a"]⟩,
   Block.sec ⟨"notifications",
      [SLine.opt "use_sandbox" "false", SLine.opt "dev_team_id" "t",
       SLine.opt "apns_encryption_key_id" "i", SLine.opt "apns_encryption_key" "k"]⟩]

/-- The config path used in the `read_config` scenarios. -/
def cfgPath : PyPath := ["d", "cfg.ini"]

/-- A filesystem where `cfgPath` exists but its parent does not exist at all. -/
def orphanFS : FS := ⟨fun q => decide (q = cfgPath), fun _ => false⟩

/-- A filesystem where `cfgPath` exists and its parent exists but is not a
directory. -/
def badParentFS : FS :=
  ⟨fun q => decide (q = cfgPath) || decide (q = parentP cfgPath), fun _ => false⟩

/-- A file store holding stale content at `config.ini` that is longer than the
document serialization about to be written. -/
def staleFiles : String → Option String :=
  fun q => if q = "config.ini" then some "[a]\nk: oldvalue111\n" else none

/-- The document written over the stale file. -/
def smallDoc : List Block := [Block.sec ⟨"a", [SLine.opt "k" "1"]⟩]

/-! ## Helper lemmas about the document model -/

@[simp]
theorem optKeys_nil : optKeys [] = [] := rfl

@[simp]
theorem optKeys_cons_opt (k v : String) (tl : List SLine) :
    optKeys (.opt k v :: tl) = k :: optKeys tl := rfl

@[simp]
theorem optKeys_cons_raw (t : String) (tl : List SLine) :
    optKeys (.raw t :: tl) = optKeys tl := rfl

@[simp]
theorem optKeys_append (l1 l2 : List SLine) :
    optKeys (l1 ++ l2) = optKeys l1 ++ optKeys l2 :=
  List.filterMap_append l1 l2 keyOf

@[simp]
theorem optionKeys_mk (nm : String) (ls : List SLine) :
    Section.optionKeys ⟨nm, ls⟩ = optKeys ls := rfl

@[simp]
theorem sectionNames_nil : sectionNames [] = [] := rfl

@[simp]
theorem sectionNames_cons_sec (s : Section) (tl : List Block) :
    sectionNames (.sec s :: tl) = s.name :: sectionNames tl := rfl

@[simp]
theorem sectionNames_cons_text (t : String) (tl : List Block) :
    sectionNames (.text t :: tl) = sectionNames tl := rfl

@[simp]
theorem sectionNames_append (l1 l2 : List Block) :
    sectionNames (l1 ++ l2) = sectionNames l1 ++ sectionNames l2 :=
  List.filterMap_append l1 l2 sectionName?

theorem insOptLines_keys :
    ∀ (lines : List SLine) (ks : List String) (a k v : String),
      optKeys lines = ks ++ [a] → a ∉ ks →
      optKeys (insOptLines lines a k v) = ks ++ [a, k] := by
  intro lines
  induction lines with
  | nil =>
    intro ks a k v h _
    simp at h
  | cons hd tl ih =>
    intro ks a k v h ha
    cases hd with
    | raw t =>
      rw [optKeys_cons_raw] at h
      simpa [insOptLines] using ih ks a k v h ha
    | opt k0 v0 =>
      rw [optKeys_cons_opt] at h
      cases ks with
      | nil =>
        have hk0 : k0 = a := by simpa using congrArg List.head? h
        have htl : optKeys tl = [] := by simpa using congrArg List.tail h
        subst hk0
        simp [insOptLines, htl]
      | cons x xs =>
        have hk0 : k0 = x := by simpa using congrArg List.head? h
        have htl : optKeys tl = xs ++ [a] := by simpa using congrArg List.tail h
        have hax : a ∉ xs := fun hin => ha (by simp [hin])
        have hxa : ¬ x = a := fun e => ha (by simp [e])
        have hrec := ih xs a k v htl hax
        simp [insOptLines, hxa, hrec, hk0]

theorem setOptLines_split :
    ∀ (u t : List SLine) (k w v : String),
      k ∉ optKeys u →
      setOptLines (u ++ .opt k w :: t) k v = u ++ .opt k v :: t := by
  intro u
  induction u with
  | nil => intro t k w v _; simp [setOptLines]
  | cons hd tl ih =>
    intro t k w v hk
    cases hd with
    | raw s => simp [setOptLines, ih t k w v (by simpa using hk)]
    | opt k0 v0 =>
      have hne : k0 ≠ k := by
        intro e
        exact hk (by simp [e])
      have htl : k ∉ optKeys tl := fun hin => hk (by simp [hin])
      simp [setOptLines, hne, ih t k w v htl]

theorem mergeOptions_keys_fresh :
    ∀ (items : List (String × String)) (sec : Section) (ks : List String) (l : String),
      sec.optionKeys = ks ++ [l] → (ks ++ [l]).Nodup →
      (∀ x ∈ items.map Prod.fst, x ∉ sec.optionKeys) →
      (items.map Prod.fst).Nodup →
      (mergeOptions sec l items).optionKeys = sec.optionKeys ++ items.map Prod.fst := by
  intro items
  induction items with
  | nil => intro sec ks l _ _ _ _; simp [mergeOptions]
  | cons it rest ih =>
    intro sec ks l hkeys hnd hfresh hndi
    obtain ⟨k, v⟩ := it
    have hknot : k ∉ sec.optionKeys := hfresh k (by simp)
    have hk : sec.hasOption k = false := by
      simp [Section.hasOption, hknot]
    have hstep : mergeOptions sec l ((k, v) :: rest) =
        mergeOptions (sec.insertAfterOpt l k v) k rest := by
      simp [mergeOptions, hk]
    have hlnot : l ∉ ks := fun hin =>
      (List.nodup_append.mp hnd).2.2 hin (by simp)
    have hins : (sec.insertAfterOpt l k v).optionKeys = (ks ++ [l]) ++ [k] := by
      obtain ⟨nm, ls⟩ := sec
      have hbase := insOptLines_keys ls ks l k v (by simpa using hkeys) hlnot
      simp [Section.insertAfterOpt, hbase]
    have hknot' : k ∉ ks ++ [l] := by rw [← hkeys]; exact hknot
    have hnd' : ((ks ++ [l]) ++ [k]).Nodup :=
      List.nodup_append.mpr ⟨hnd, List.nodup_singleton k,
        fun x hx hxk => hknot' ((List.mem_singleton.mp hxk) ▸ hx)⟩
    have hkrest : k ∉ rest.map Prod.fst := (List.nodup_cons.mp hndi).1
    have hfresh' : ∀ x ∈ rest.map Prod.fst, x ∉ (sec.insertAfterOpt l k v).optionKeys := by
      intro x hx
      rw [hins]
      intro hmem
      rcases List.mem_append.mp hmem with hmem1 | hmem2
      · exact hfresh x (by simp [hx]) (hkeys ▸ hmem1)
      · exact hkrest ((List.mem_singleton.mp hmem2) ▸ hx)
    have hrec := ih (sec.insertAfterOpt l k v) (ks ++ [l]) k hins hnd' hfresh'
      (List.nodup_cons.mp hndi).2
    rw [hstep, hrec, hins, hkeys]
    simp

theorem mergeOptions_name :
    ∀ (items : List (String × String)) (sec : Section) (l : String),
      (mergeOptions sec l items).name = sec.name := by
  intro items
  induction items with
  | nil => intro sec l; rfl
  | cons it rest ih =>
    intro sec l
    obtain ⟨k, v⟩ := it
    by_cases h : sec.hasOption k = true
    · simp [mergeOptions, h, ih, Section.setValue]
    · simp only [Bool.not_eq_true] at h
      simp [mergeOptions, h, ih, Section.insertAfterOpt]

theorem getSection?_skip :
    ∀ (B1 : List Block) (rest : List Block) (a : String),
      a ∉ sectionNames B1 → getSection? (B1 ++ rest) a = getSection? rest a := by
  intro B1
  induction B1 with
  | nil => intro rest a _; rfl
  | cons hd tl ih =>
    intro rest a ha
    cases hd with
    | text t => simpa [getSection?] using ih rest a (by simpa using ha)
    | sec s =>
      rw [sectionNames_cons_sec] at ha
      have hne : ¬ s.name = a := fun e => ha (by simp [e])
      have ha2 : a ∉ sectionNames tl := fun hin => ha (by simp [hin])
      simpa [getSection?, hne] using ih rest a ha2

@[simp]
theorem getSection?_cons_sec_self (s : Section) (tl : List Block) :
    getSection? (.sec s :: tl) s.name = some s := by
  simp [getSection?]

theorem setSection_skip :
    ∀ (B1 : List Block) (rest : List Block) (a : String) (s' : Section),
      a ∉ sectionNames B1 → setSection (B1 ++ rest) a s' = B1 ++ setSection rest a s' := by
  intro B1
  induction B1 with
  | nil => intro rest a s' _; rfl
  | cons hd tl ih =>
    intro rest a s' ha
    cases hd with
    | text t => simpa [setSection] using ih rest a s' (by simpa using ha)
    | sec s =>
      rw [sectionNames_cons_sec] at ha
      have hne : ¬ s.name = a := fun e => ha (by simp [e])
      have ha2 : a ∉ sectionNames tl := fun hin => ha (by simp [hin])
      simpa [setSection, hne] using ih rest a s' ha2

theorem getSection?_name :
    ∀ (doc : List Block) (nm : String) (s : Section),
      getSection? doc nm = some s → s.name = nm := by
  intro doc
  induction doc with
  | nil => intro nm s h; simp [getSection?] at h
  | cons hd tl ih =>
    intro nm s h
    cases hd with
    | text t => exact ih nm s (by simpa [getSection?] using h)
    | sec b =>
      by_cases hb : b.name = nm
      · have : b = s := by simpa [getSection?, hb] using h
        rw [← this]; exact hb
      · exact ih nm s (by simpa [getSection?, hb] using h)

theorem getSection?_setSection_ne :
    ∀ (doc : List Block) (nm a : String) (s' : Section),
      nm ≠ a → s'.name = nm →
      getSection? (setSection doc nm s') a = getSection? doc a := by
  intro doc
  induction doc with
  | nil => intro nm a s' _ _; rfl
  | cons hd tl ih =>
    intro nm a s' hne hname
    cases hd with
    | text t => simpa [setSection, getSection?] using ih nm a s' hne hname
    | sec b =>
      by_cases hb : b.name = nm
      · have hsa : ¬ s'.name = a := by rw [hname]; exact hne
        have hba : ¬ b.name = a := by rw [hb]; exact hne
        simp [setSection, getSection?, hb, hsa, hba, hne]
      · by_cases hba : b.name = a
        · simp [setSection, getSection?, hb, hba, Ne.symm hne]
        · simpa [setSection, getSection?, hb, hba] using ih nm a s' hne hname

theorem getSection?_eq_none_iff :
    ∀ (doc : List Block) (nm : String),
      getSection? doc nm = none ↔ nm ∉ sectionNames doc := by
  intro doc
  induction doc with
  | nil => intro nm; simp [getSection?]
  | cons hd tl ih =>
    intro nm
    cases hd with
    | text t => simpa [getSection?] using ih nm
    | sec b =>
      by_cases hb : b.name = nm
      · simp [getSection?, hb]
      · have hnb : ¬ nm = b.name := fun e => hb e.symm
        simp [getSection?, hb, ih nm, hnb]

theorem mergeStep1_single_existing :
    ∀ (B1 B2 : List Block) (sec : Section) (items : List (String × String)) (l : String),
      sec.name ∉ sectionNames B1 →
      sec.optionKeys.getLast? = some l →
      mergeStep1 (B1 ++ .sec sec :: B2) [] [(sec.name, items)] =
        .ok (B1 ++ .sec (mergeOptions sec l items) :: B2, []) := by
  intro B1 B2 sec items l hB1 hlast
  have hget : getSection? (B1 ++ .sec sec :: B2) sec.name = some sec := by
    rw [getSection?_skip B1 _ _ hB1]
    simp
  have hset : setSection (B1 ++ .sec sec :: B2) sec.name (mergeOptions sec l items) =
      B1 ++ .sec (mergeOptions sec l items) :: B2 := by
    rw [setSection_skip B1 _ _ _ hB1]
    simp [setSection]
  simp [mergeStep1, hget, hlast, hset]

theorem mergeStep1_all_new :
    ∀ (overlay : List (String × List (String × String))) (doc : List Block)
      (acc : List Section),
      (∀ nm ∈ overlay.map Prod.fst, getSection? doc nm = none) →
      mergeStep1 doc acc overlay =
        .ok (doc, acc ++ overlay.map (fun e => buildSection e.1 e.2)) := by
  intro overlay
  induction overlay with
  | nil => intro doc acc _; simp [mergeStep1]
  | cons e rest ih =>
    intro doc acc h
    obtain ⟨nm, its⟩ := e
    have hnone : getSection? doc nm = none := h nm (by simp)
    have hrest : ∀ x ∈ rest.map Prod.fst, getSection? doc x = none :=
      fun x hx => h x (by simp [hx])
    rw [mergeStep1, hnone]
    simp only
    rw [ih doc (acc ++ [buildSection nm its]) hrest]
    simp

theorem mergeStep1_error_propagates :
    ∀ (pre : List (String × List (String × String))) (doc : List Block)
      (acc : List Section) (a : String) (items : List (String × String))
      (post : List (String × List (String × String))) (secA : Section),
      getSection? doc a = some secA → secA.optionKeys = [] →
      ∃ e, mergeStep1 doc acc (pre ++ (a, items) :: post) = .error e := by
  intro pre
  induction pre with
  | nil =>
    intro doc acc a items post secA hget hkeys
    refine ⟨.indexError, ?_⟩
    simp [mergeStep1, hget, hkeys]
  | cons e pre' ih =>
    intro doc acc a items post secA hget hkeys
    obtain ⟨nm, its⟩ := e
    cases hsec : getSection? doc nm with
    | none =>
      obtain ⟨err, herr⟩ := ih doc (acc ++ [buildSection nm its]) a items post secA hget hkeys
      exact ⟨err, by simp only [mergeStep1]; rw [hsec]; simpa using herr⟩
    | some s =>
      cases hlast : s.optionKeys.getLast? with
      | none => exact ⟨.indexError, by simp only [mergeStep1]; rw [hsec]; simp [hlast]⟩
      | some l =>
        by_cases hnm : nm = a
        · exfalso
          subst hnm
          have : s = secA := by rw [hget] at hsec; exact (Option.some_injective _ hsec).symm
          rw [this, hkeys] at hlast
          simp at hlast
        · have hname : s.name = nm := getSection?_name doc nm s hsec
          have hmname : (mergeOptions s l its).name = nm := by
            rw [mergeOptions_name]; exact hname
          have hpres : getSection? (setSection doc nm (mergeOptions s l its)) a = some secA := by
            rw [getSection?_setSection_ne doc nm a (mergeOptions s l its) hnm hmname]
            exact hget
          obtain ⟨err, herr⟩ := ih (setSection doc nm (mergeOptions s l its)) acc a items post
            secA hpres hkeys
          exact ⟨err, by simp only [mergeStep1]; rw [hsec]; simpa [hlast] using herr⟩

theorem addSpaceSectionAfter_last :
    ∀ (D : List Block) (s c : Section),
      s.name ∉ sectionNames D →
      addSpaceSectionAfter (D ++ [.sec s]) s.name c = D ++ [.sec s, .text "", .sec c] := by
  intro D
  induction D with
  | nil => intro s c _; simp [addSpaceSectionAfter]
  | cons hd tl ih =>
    intro s c h
    cases hd with
    | text t => simpa [addSpaceSectionAfter] using ih s c (by simpa using h)
    | sec b =>
      rw [sectionNames_cons_sec] at h
      have hne : ¬ b.name = s.name := fun e => h (by simp [e])
      have h2 : s.name ∉ sectionNames tl := fun hin => h (by simp [hin])
      simpa [addSpaceSectionAfter, hne] using ih s c h2

theorem mergeAppend_chain :
    ∀ (toAdd : List Section) (D : List Block) (s : Section),
      s.name ∉ sectionNames D →
      (∀ c ∈ toAdd, c.name ∉ sectionNames D ∧ c.name ≠ s.name) →
      (toAdd.map Section.name).Nodup →
      mergeAppend (D ++ [.sec s]) s.name toAdd =
        (D ++ [Block.sec s]) ++ (toAdd.map (fun c => [Block.text "", Block.sec c])).flatten := by
  intro toAdd
  induction toAdd with
  | nil => intro D s _ _ _; simp [mergeAppend]
  | cons c rest ih =>
    intro D s hs hfresh hnd
    have h1 : addSpaceSectionAfter (D ++ [.sec s]) s.name c = D ++ [.sec s, .text "", .sec c] :=
      addSpaceSectionAfter_last D s c hs
    have hstep : mergeAppend (D ++ [.sec s]) s.name (c :: rest) =
        mergeAppend ((D ++ [Block.sec s, Block.text ""]) ++ [.sec c]) c.name rest := by
      rw [mergeAppend, h1]
      simp
    have hnamesD' : sectionNames (D ++ [Block.sec s, Block.text ""]) = sectionNames D ++ [s.name] := by
      simp
    have hc := hfresh c (by simp)
    have hcD' : c.name ∉ sectionNames (D ++ [Block.sec s, Block.text ""]) := by
      rw [hnamesD']
      intro hmem
      rcases List.mem_append.mp hmem with h' | h'
      · exact hc.1 h'
      · exact hc.2 (List.mem_singleton.mp h')
    have hcrest : c.name ∉ rest.map Section.name := (List.nodup_cons.mp hnd).1
    have hfresh' : ∀ x ∈ rest, x.name ∉ sectionNames (D ++ [Block.sec s, Block.text ""]) ∧
        x.name ≠ c.name := by
      intro x hx
      have hxf := hfresh x (by simp [hx])
      constructor
      · rw [hnamesD']
        intro hmem
        rcases List.mem_append.mp hmem with h' | h'
        · exact hxf.1 h'
        · exact hxf.2 (List.mem_singleton.mp h')
      · intro he
        exact hcrest (he ▸ List.mem_map_of_mem Section.name hx)
    have hrec := ih (D ++ [Block.sec s, Block.text ""]) c hcD' hfresh' (List.nodup_cons.mp hnd).2
    rw [hstep, hrec]
    simp

/-! ## Claim theorems -/

/-- C2: for every document containing a section `S` with at least one entry and
every overlay assigning `S` a sequence of keys not present in `S`, the merge
appends those keys after `S`'s current last key, advancing the insertion anchor,
so the resulting section lists the original keys in their original order
followed by the new keys in overlay order. -/
theorem mergeDoc_appends_fresh_keys :
    ∀ (B1 B2 : List Block) (sec : Section) (items : List (String × String)),
      sec.name ∉ sectionNames B1 →
      sec.optionKeys ≠ [] →
      sec.optionKeys.Nodup →
      (∀ x ∈ items.map Prod.fst, x ∉ sec.optionKeys) →
      (items.map Prod.fst).Nodup →
      ∃ sec' : Section,
        mergeDoc (B1 ++ Block.sec sec :: B2) [(sec.name, items)] =
          .ok (B1 ++ Block.sec sec' :: B2) ∧
        sec'.optionKeys = sec.optionKeys ++ items.map Prod.fst ∧
        sec'.name = sec.name := by
  intro B1 B2 sec items hB1 hne hnd hfresh hndi
  obtain ⟨ks, l, hkl⟩ : ∃ ks l, sec.optionKeys = ks ++ [l] := by
    rcases List.eq_nil_or_concat sec.optionKeys with h | ⟨ks, l, h⟩
    · exact absurd h hne
    · exact ⟨ks, l, by simpa [List.concat_eq_append] using h⟩
  have hlast : sec.optionKeys.getLast? = some l := by
    rw [hkl]; exact List.getLast?_concat _
  refine ⟨mergeOptions sec l items, ?_, ?_, mergeOptions_name items sec l⟩
  · unfold mergeDoc
    rw [mergeStep1_single_existing B1 B2 sec items l hB1 hlast]
    simp
  · exact mergeOptions_keys_fresh items sec ks l hkl (hkl ▸ hnd) hfresh hndi

/-- Witness for C2 at the spec's own example: `[a]` with `k1, k2` plus overlay
`{a: {k3: x, k4: y}}` yields `k1, k2, k3, k4`. -/
theorem mergeDoc_appends_fresh_keys_witness :
    ∃ sec' : Section,
      mergeDoc [Block.sec ⟨"a", [SLine.opt "k1" "1", SLine.opt "k2" "2"]⟩]
          [("a", [("k3", "x"), ("k4", "y")])] =
        .ok [Block.sec sec'] ∧
      sec'.optionKeys = ["k1", "k2", "k3", "k4"] ∧
      sec'.name = "a" := by
  have h := mergeDoc_appends_fresh_keys [] [] ⟨"a", [SLine.opt "k1" "1", SLine.opt "k2" "2"]⟩
    [("k3", "x"), ("k4", "y")] (by simp) (by decide) (by decide) (by decide) (by decide)
  simpa using h

/-- C3: merging an overlay that reassigns an existing key `k` of section `[a]`
updates the value in place: the serialized result has `k`'s line at the same
position and every other line byte-identical to the original. -/
theorem mergeDoc_update_in_place :
    ∀ (B1 B2 : List Block) (a k w v : String) (u t : List SLine),
      a ∉ sectionNames B1 →
      k ∉ optKeys u →
      ∃ pre suf : List String,
        mergeDoc (B1 ++ Block.sec ⟨a, u ++ SLine.opt k w :: t⟩ :: B2) [(a, [(k, v)])] =
          .ok (B1 ++ Block.sec ⟨a, u ++ SLine.opt k v :: t⟩ :: B2) ∧
        serializeDocLines (B1 ++ Block.sec ⟨a, u ++ SLine.opt k w :: t⟩ :: B2) =
          pre ++ (k ++ ": " ++ w) :: suf ∧
        serializeDocLines (B1 ++ Block.sec ⟨a, u ++ SLine.opt k v :: t⟩ :: B2) =
          pre ++ (k ++ ": " ++ v) :: suf := by
  intro B1 B2 a k w v u t hB1 hku
  have hne : optKeys u ++ k :: optKeys t ≠ [] := by simp
  obtain ⟨l, hlast⟩ : ∃ l, (Section.optionKeys ⟨a, u ++ SLine.opt k w :: t⟩).getLast? = some l := by
    cases h : (Section.optionKeys ⟨a, u ++ SLine.opt k w :: t⟩).getLast? with
    | none =>
      exfalso
      have := List.getLast?_eq_none_iff.mp h
      simp at this
    | some l => exact ⟨l, rfl⟩
  have hkin : Section.hasOption ⟨a, u ++ SLine.opt k w :: t⟩ k = true := by
    simp [Section.hasOption]
  have hmerge : mergeOptions ⟨a, u ++ SLine.opt k w :: t⟩ l [(k, v)] =
      ⟨a, u ++ SLine.opt k v :: t⟩ := by
    simp [mergeOptions, hkin, Section.setValue, setOptLines_split u t k w v hku]
  refine ⟨serializeDocLines B1 ++ ("[" ++ a ++ "]") :: u.map slineStr,
    t.map slineStr ++ serializeDocLines B2, ?_, ?_, ?_⟩
  · unfold mergeDoc
    rw [mergeStep1_single_existing B1 B2 ⟨a, u ++ SLine.opt k w :: t⟩ [(k, v)] l hB1 hlast,
      hmerge]
    simp
  · simp [serializeDocLines, blockLines, slineStr]
  · simp [serializeDocLines, blockLines, slineStr]

/-- Witness for C3 at the spec's own example: `[a]` with `k: 1` merged with
`{a: {k: 2}}`. -/
theorem mergeDoc_update_in_place_witness :
    ∃ pre suf : List String,
      mergeDoc [Block.sec ⟨"a", [SLine.opt "k" "1"]⟩] [("a", [("k", "2")])] =
        .ok [Block.sec ⟨"a", [SLine.opt "k" "2"]⟩] ∧
      serializeDocLines [Block.sec ⟨"a", [SLine.opt "k" "1"]⟩] =
        pre ++ ("k" ++ ": " ++ "1") :: suf ∧
      serializeDocLines [Block.sec ⟨"a", [SLine.opt "k" "2"]⟩] =
        pre ++ ("k" ++ ": " ++ "2") :: suf := by
  have h := mergeDoc_update_in_place [] [] "a" "k" "1" "2" [] [] (by simp) (by simp)
  simpa using h

/-- C4: for a document with at least one section and an overlay naming only
sections absent from the document, the merge appends each new section after the
document's previously last section, in overlay order, each preceded by exactly
one blank line, so multiple new sections end up consecutive and chained. -/
theorem mergeDoc_appends_new_sections :
    ∀ (B : List Block) (z : Section) (overlay : List (String × List (String × String))),
      (∀ nm ∈ overlay.map Prod.fst, getSection? (B ++ [Block.sec z]) nm = none) →
      (overlay.map Prod.fst).Nodup →
      z.name ∉ sectionNames B →
      mergeDoc (B ++ [Block.sec z]) overlay =
        .ok ((B ++ [Block.sec z]) ++
          (overlay.map (fun e => [Block.text "", Block.sec (buildSection e.1 e.2)])).flatten) := by
  intro B z overlay habsent hnd hz
  have hstep1 := mergeStep1_all_new overlay (B ++ [Block.sec z]) [] habsent
  unfold mergeDoc
  rw [hstep1]
  cases overlay with
  | nil => simp
  | cons e rest =>
    have hlastname : (sectionNames (B ++ [Block.sec z])).getLast? = some z.name := by
      rw [sectionNames_append, sectionNames_cons_sec, sectionNames_nil]
      exact List.getLast?_concat _
    have hfreshAll : ∀ c ∈ (e :: rest).map (fun x => buildSection x.1 x.2),
        c.name ∉ sectionNames B ∧ c.name ≠ z.name := by
      intro c hc
      obtain ⟨x, hx, rfl⟩ := List.mem_map.mp hc
      have h0 := habsent x.1 (List.mem_map_of_mem Prod.fst hx)
      have h1 := (getSection?_eq_none_iff _ _).mp h0
      rw [sectionNames_append, sectionNames_cons_sec, sectionNames_nil] at h1
      simp only [List.mem_append, List.mem_singleton, not_or] at h1
      exact ⟨h1.1, h1.2⟩
    have hcomp : (Section.name ∘ fun x : String × List (String × String) =>
        buildSection x.1 x.2) = Prod.fst := rfl
    have hndAdd : (((e :: rest).map fun x => buildSection x.1 x.2).map Section.name).Nodup := by
      rw [List.map_map, hcomp]
      exact hnd
    have hchain := mergeAppend_chain ((e :: rest).map fun x => buildSection x.1 x.2)
      B z hz hfreshAll hndAdd
    simp only [List.nil_append, List.isEmpty_cons, List.map_cons, Bool.false_eq_true,
      if_false, hlastname]
    rw [List.map_cons] at hchain
    rw [hchain, List.map_cons, List.map_map]
    rfl

/-- Witness for C4 at the spec's own example: `[a]`, `[b]` plus overlay
`{c: {k: v}}` gives `[a]`, `[b]`, one blank line, `[c]`. -/
theorem mergeDoc_appends_new_sections_witness :
    mergeDoc [Block.sec ⟨"a", [SLine.opt "k1" "1"]⟩, Block.sec ⟨"b", [SLine.opt "k2" "2"]⟩]
        [("c", [("k", "v")])] =
      .ok [Block.sec ⟨"a", [SLine.opt "k1" "1"]⟩, Block.sec ⟨"b", [SLine.opt "k2" "2"]⟩,
        Block.text "", Block.sec ⟨"c", [SLine.opt "k" "v"]⟩] := by
  have h := mergeDoc_appends_new_sections [Block.sec ⟨"a", [SLine.opt "k1" "1"]⟩]
    ⟨"b", [SLine.opt "k2" "2"]⟩ [("c", [("k", "v")])] (by decide) (by decide) (by decide)
  simpa using h

/-- C9: for every document containing a section `S` with zero entries and every
overlay assigning at least one key to `S`, the merge raises an exception (the
`options()[-1]` index access on the empty options list) instead of inserting
the key as the section's first entry. -/
theorem mergeDoc_empty_section_raises :
    ∀ (doc : List Block) (pre post : List (String × List (String × String)))
      (a : String) (items : List (String × String)) (secA : Section),
      getSection? doc a = some secA →
      secA.optionKeys = [] →
      items ≠ [] →
      ∃ e, mergeDoc doc (pre ++ (a, items) :: post) = .error e := by
  intro doc pre post a items secA hget hkeys _
  obtain ⟨err, herr⟩ := mergeStep1_error_propagates pre doc [] a items post secA hget hkeys
  exact ⟨err, by unfold mergeDoc; rw [herr]⟩

/-- Witness for C9: a document whose only section `[a]` is empty, merged with
`{a: {k: v}}`, errors instead of inserting `k`. -/
theorem mergeDoc_empty_section_raises_witness :
    ∃ e, mergeDoc [Block.sec ⟨"a", []⟩] [("a", [("k", "v")])] = .error e :=
  mergeDoc_empty_section_raises [Block.sec ⟨"a", []⟩] [] [] "a" [("k", "v")] ⟨"a", []⟩
    (by decide) rfl (by decide)

/-- C1 counterexample: on an overlay lacking `config_file_path`, the factory
does fail before opening any file, but with `AttributeError`, not with the
`ConfigError` the claim states. -/
theorem config_updater_factory_missing_path_not_config_error :
    isErrorResult (config_updater_factory noPathBox smallWorld).result = true ∧
    isConfigErrorResult (config_updater_factory noPathBox smallWorld).result = false ∧
    (config_updater_factory noPathBox smallWorld).openedPaths = [] := by
  refine ⟨rfl, rfl, rfl⟩

/-- C1 (amended): for every overlay without the reserved `config_file_path`
key, `config_updater_factory` raises `AttributeError` (not `ConfigError`), and
does so before touching the document: no file is opened and the caller's
overlay is untouched. -/
theorem config_updater_factory_missing_path_attribute_error :
    ∀ (b : Box) (fileDocs : String → Option (List Block)),
      b.config_file_path = none →
      (config_updater_factory b fileDocs).result =
        .error (.attributeError
          "The config is missing the config_file_path. This should not happen.") ∧
      (config_updater_factory b fileDocs).openedPaths = [] ∧
      (config_updater_factory b fileDocs).callerConfig = b := by
  intro b fileDocs h
  simp [config_updater_factory, deepcopyBox, h]

/-- Witness for the amended C1. -/
theorem config_updater_factory_missing_path_attribute_error_witness :
    (config_updater_factory noPathBox smallWorld).result =
      .error (.attributeError
        "The config is missing the config_file_path. This should not happen.") ∧
    (config_updater_factory noPathBox smallWorld).openedPaths = [] ∧
    (config_updater_factory noPathBox smallWorld).callerConfig = noPathBox :=
  config_updater_factory_missing_path_attribute_error noPathBox smallWorld rfl

/-- C10: when the overlay does carry the reserved `config_file_path` key, the
factory pops it only from a deep copy: the caller's `Box` is left completely
unchanged — no section or key is added, removed, or reassigned. -/
theorem config_updater_factory_preserves_caller_box :
    ∀ (b : Box) (fileDocs : String → Option (List Block)),
      b.config_file_path.isSome = true →
      (config_updater_factory b fileDocs).callerConfig = b := by
  intro b fileDocs h
  cases hb : b.config_file_path with
  | none => rw [hb] at h; simp at h
  | some p =>
    cases hfd : fileDocs p with
    | none => simp [config_updater_factory, deepcopyBox, hb, hfd]
    | some doc =>
      cases hm : mergeDoc doc b.sections with
      | error e => simp [config_updater_factory, deepcopyBox, hb, hfd, hm]
      | ok doc' => simp [config_updater_factory, deepcopyBox, hb, hfd, hm]

/-- Witness for C10. -/
theorem config_updater_factory_preserves_caller_box_witness :
    (config_updater_factory withPathBox smallWorld).callerConfig = withPathBox :=
  config_updater_factory_preserves_caller_box withPathBox smallWorld rfl

/-- C5 (code bug): `write_config_updater` opens with `O_WRONLY | O_CREAT` and
no `O_TRUNC`, so writing a serialization shorter than the file's previous
content leaves the previous content's trailing bytes in place: the file does
not contain exactly the serialization of the document. -/
theorem write_config_updater_keeps_stale_bytes :
    write_config_updater staleFiles "config.ini" smallDoc "config.ini" =
      some "[a]\nk: 1\ndvalue111\n" ∧
    serializeDoc smallDoc = "[a]\nk: 1\n" ∧
    write_config_updater staleFiles "config.ini" smallDoc "config.ini" ≠
      some (serializeDoc smallDoc) := by
  refine ⟨by decide, by decide, by decide⟩

/-- C6: the `use_sandbox` string is coerced case-insensitively inside
`read_config`: lowercased `"true"` gives `true`, lowercased `"false"` gives
`false` (no warning in either case), and anything else logs the warning and
defaults to `false`. -/
theorem coerce_use_sandbox_cases :
    ∀ v : String,
      (pyLower v = "true" → coerce_use_sandbox v = (true, false)) ∧
      (pyLower v = "false" → coerce_use_sandbox v = (false, false)) ∧
      (pyLower v ≠ "true" → pyLower v ≠ "false" → coerce_use_sandbox v = (false, true)) := by
  intro v
  refine ⟨fun h => ?_, fun h => ?_, fun h1 h2 => ?_⟩
  · simp [coerce_use_sandbox, h]
  · rw [coerce_use_sandbox, h]; decide
  · simp [coerce_use_sandbox, h1, h2]

/-- Witness for C6 at the spec's own examples: `TRUE` resolves to `true`,
`maybe` warns and resolves to `false`. -/
theorem coerce_use_sandbox_cases_witness :
    coerce_use_sandbox "TRUE" = (true, false) ∧
    coerce_use_sandbox "maybe" = (false, true) :=
  ⟨(coerce_use_sandbox_cases "TRUE").1 (by decide),
   (coerce_use_sandbox_cases "maybe").2.2 (by decide) (by decide)⟩

/-- C7: when the resolved config file exists but the permission verifier
rejects it, `read_config` exits with status 1 without ever reaching the parse
step. -/
theorem read_config_perm_fail_no_parse :
    ∀ (candidates : List PyPath) (fs : FS) (verify : PyPath → Bool)
      (docAt : PyPath → Option (List Block)) (defaultDoc : List Block) (p : PyPath),
      candidates.find? (fun q => fs.pathExists q) = some p →
      verify p = false →
      (read_config candidates fs verify docAt defaultDoc).1 = .exited 1 ∧
      RCEvent.parsedFile ∉ (read_config candidates fs verify docAt defaultDoc).2 := by
  intro candidates fs verify docAt defaultDoc p hfind hv
  unfold read_config
  rw [hfind]
  unfold readConfigAt
  by_cases hpar : (fs.pathExists (parentP p) && !fs.isDir (parentP p)) = true
  · simp [hpar]
  · simp [hpar, hv]

/-- Witness for C7: an existing file whose permission check fails. -/
theorem read_config_perm_fail_no_parse_witness :
    (read_config [cfgPath] orphanFS (fun _ => false) (fun _ => some fullDoc) []).1 =
      .exited 1 ∧
    RCEvent.parsedFile ∉
      (read_config [cfgPath] orphanFS (fun _ => false) (fun _ => some fullDoc) []).2 :=
  read_config_perm_fail_no_parse [cfgPath] orphanFS (fun _ => false)
    (fun _ => some fullDoc) [] cfgPath (by decide) rfl

/-- C8 counterexample: with a resolved path whose parent does not exist at all,
`read_config` does not fail at the parent check — it proceeds and returns a
resolved configuration. -/
theorem read_config_parent_missing_proceeds :
    orphanFS.pathExists cfgPath = true ∧
    orphanFS.pathExists (parentP cfgPath) = false ∧
    orphanFS.isDir (parentP cfgPath) = false ∧
    RCResult.isExited
      (read_config [cfgPath] orphanFS (fun _ => true)
        (fun q => if q = cfgPath then some fullDoc else none) []).1 = false := by
  refine ⟨by decide, by decide, by decide, by decide⟩

/-- C8 (amended): `read_config` exits fatally with status 1 when the resolved
path's parent exists and is not a directory; when the parent does not exist at
all, the check passes and `read_config` proceeds. -/
theorem read_config_parent_nondir_exits :
    ∀ (candidates : List PyPath) (fs : FS) (verify : PyPath → Bool)
      (docAt : PyPath → Option (List Block)) (defaultDoc : List Block) (p : PyPath),
      candidates.find? (fun q => fs.pathExists q) = some p →
      fs.pathExists (parentP p) = true →
      fs.isDir (parentP p) = false →
      (read_config candidates fs verify docAt defaultDoc).1 = .exited 1 := by
  intro candidates fs verify docAt defaultDoc p hfind hpe hpd
  unfold read_config
  rw [hfind]
  unfold readConfigAt
  simp [hpe, hpd]

/-- Witness for the amended C8: a path whose parent exists as a non-directory. -/
theorem read_config_parent_nondir_exits_witness :
    (read_config [cfgPath] badParentFS (fun _ => true) (fun _ => some fullDoc) []).1 =
      .exited 1 :=
  read_config_parent_nondir_exits [cfgPath] badParentFS (fun _ => true)
    (fun _ => some fullDoc) [] cfgPath (by decide) (by decide) (by decide)

end AWattPrice
